import Mathlib

/-!
# Session core of wechat-go (`wxweb/session.go`)

A shallow embedding of the parts of `session.go` that decide how a logged-in
session behaves: `analizeVersion` (shard selection from the redirect URL),
`producer` (the long-poll loop), `consumer` (batch dispatch) and `analize`
(message normalisation).

Conventions of the embedding:

* a Go `string` is its byte sequence, `List Nat` (one entry per byte);
* Go `int` values are only compared with constants here, so they are `Int`;
* a run-time panic (failed type assertion, nil dereference) is the `error`
  side of `Except Panic`;
* side effects (`go v.Run(..)`, `logs.Error(..)`, channel sends) are recorded
  as an ordered list of events;
* calls into code that is not part of `session.go` (`url.Parse`,
  `HandlerRegister.Get`, `SyncCheck`, `WebWxSync`, the JSON accessors) are
  represented by their results, which are inputs of the model.
-/

set_option autoImplicit false

namespace Wxweb

/-! ## Go strings and the `strings` functions used by `session.go` -/

/-- A Go string: its sequence of bytes. -/
abbrev GoString := List Nat

/-- UTF-8 encoding of one code point, as the Go compiler does it for string literals. -/
def utf8 (c : Nat) : List Nat :=
  if c < 128 then [c]
  else if c < 2048 then [192 + c / 64, 128 + c % 64]
  else if c < 65536 then [224 + c / 4096, 128 + c / 64 % 64, 128 + c % 64]
  else [240 + c / 262144, 128 + c / 4096 % 64, 128 + c / 64 % 64, 128 + c % 64]

/-- The bytes of a string literal. -/
def bytes (s : String) : GoString :=
  s.data.flatMap (fun c => utf8 c.toNat)

/-- Go `strings.HasPrefix(s, pre)`. -/
def hasPrefix (s pre : GoString) : Bool :=
  pre.isPrefixOf s

/-- Go `strings.Index(s, sep)`: offset of the first occurrence of `sep` in `s`,
`none` for Go's `-1`. -/
def index : GoString → GoString → Option Nat
  | [], sep => if sep.isPrefixOf [] then some 0 else none
  | c :: t, sep =>
    if sep.isPrefixOf (c :: t) then some 0 else (index t sep).map (· + 1)

/-- Go `strings.Contains(s, sub)`, which is `Index(s, sub) >= 0`. -/
def contains (s sub : GoString) : Bool :=
  (index s sub).isSome

/-- The loop of Go `strings.genSplit` for a non-empty separator: cut at the first
occurrence, continue behind it, stop when `Index` fails. `n` bounds the number
of cuts. -/
def splitLoop (sep : GoString) : Nat → GoString → List GoString
  | 0, s => [s]
  | n + 1, s =>
    match index s sep with
    | none => [s]
    | some m => s.take m :: splitLoop sep n (s.drop (m + sep.length))

/-- Go `strings.Split(s, sep)` for a non-empty `sep` (every call site in
`session.go` passes a non-empty literal). Go bounds the loop by
`Count(s, sep)`; the loop also stops at the first failed `Index`, and the bound
`s.length` used here gives the same slice (`split_eq_count_bound`), as does any
larger one (`splitLoop_fuel`). -/
def split (s sep : GoString) : List GoString :=
  splitLoop sep s.length s

/-- Go `strings.Count(s, sep)` for a non-empty `sep`, with the loop bound explicit. -/
def countLoop (sep : GoString) : Nat → GoString → Nat
  | 0, _ => 0
  | n + 1, s =>
    match index s sep with
    | none => 0
    | some m => countLoop sep n (s.drop (m + sep.length)) + 1

/-- Go `strings.Count(s, sep)` for a non-empty `sep`. -/
def count (s sep : GoString) : Nat :=
  countLoop sep s.length s

/-- No proper non-empty beginning of `sep` is also an end of it, so two
occurrences of `sep` never overlap. -/
def Unbordered (sep : GoString) : Prop :=
  ∀ k < sep.length, 0 < k → sep.take k ≠ sep.drop (sep.length - k)

instance (sep : GoString) : Decidable (Unbordered sep) := by
  unfold Unbordered; infer_instance

/-- The group-chat marker of line 297. -/
def groupMarker : GoString := bytes "@@"

/-- The speaker delimiter of line 301. -/
def speakerDelim : GoString := bytes ":<br/>"

/-- The mention sign of line 316. -/
def atSign : GoString := bytes "@"

/-- The mention separator of line 318, U+2005 (three bytes in UTF-8). -/
def mentionSep : GoString := bytes "\u2005"

/-! ## Data model -/

/-- A run-time panic of the Go program. -/
inductive Panic where
  | typeAssertion
  | nilDereference
  deriving DecidableEq, Repr

/-- A Go `error` value built by `fmt.Errorf(format, args...)`, kept unformatted. -/
structure GoError where
  format : String
  args : List Int
  deriving DecidableEq, Repr

/-- Go `fmt.Errorf` with integer arguments. -/
def Errorf (format : String) (args : List Int) : GoError :=
  ⟨format, args⟩

/-- A decoded JSON value (`interface{}` as produced by `encoding/json`). A number
is a `float64` in Go; the model keeps the integer that `int(..)` gives for it. -/
inductive JVal where
  | null
  | bool (b : Bool)
  | num (n : Int)
  | str (s : GoString)
  | arr (xs : List JVal)
  | obj (kvs : List (GoString × JVal))

/-- The fields of `ReceivedMessage` that `analize` assigns. -/
structure ReceivedMessage where
  MsgId : GoString
  OriginContent : GoString
  FromUserName : GoString
  ToUserName : GoString
  MsgType : Int
  IsGroup : Bool
  Who : GoString
  Content : GoString
  At : GoString
  deriving DecidableEq, Repr

/-- The bot's own identity (`User`); only `UserName` is read by `session.go`. -/
structure User where
  UserName : GoString
  deriving DecidableEq, Repr

/-- The session configuration `Common`. -/
structure Common where
  AppId : GoString
  LoginUrl : GoString
  Lang : GoString
  DeviceID : GoString
  UserAgent : GoString
  CgiUrl : GoString
  CgiDomain : GoString
  SyncSrv : GoString
  UploadUrl : GoString
  MediaCount : Nat
  RedirectUri : GoString
  deriving DecidableEq, Repr

/-- The handler registry as `consumer` sees it: the result of
`HandlerRegister.Get(key)`, an error and a handler list. `H` is the type of
handler references. -/
structure HandlerRegister (H : Type) where
  Get : Int → Option GoError × List H

/-- The session fields read or written by the modelled functions. `Bot` is a
pointer in Go and may be nil. -/
structure Session (H : Type) where
  WxWebCommon : Common
  Bot : Option User
  QrcodePath : GoString
  QrcodeUUID : GoString
  HandlerRegister : HandlerRegister H

/-- The two fields of a parsed URL that `analizeVersion` reads. -/
structure URL where
  Scheme : GoString
  Host : GoString
  deriving DecidableEq, Repr

/-! ## `analizeVersion` (lines 119-133) -/

/-- `Session.analizeVersion`. `urlParse` stands for `url.Parse`; `none` is its
error case, in which `u` is nil and line 123 dereferences it. -/
def analizeVersion {H : Type} (urlParse : GoString → Option URL) (s : Session H)
    (uri : GoString) : Except Panic (Session H) :=
  match urlParse uri with
  | none => .error .nilDereference
  | some u =>
    let c := s.WxWebCommon
    let c := { c with CgiDomain := u.Scheme ++ bytes "://" ++ u.Host }
    let c := { c with CgiUrl := c.CgiDomain ++ bytes "/cgi-bin/mmwebwx-bin" }
    let c :=
      if contains u.Host (bytes "wx2") then
        { c with SyncSrv := bytes "webpush.wx2.qq.com" }
      else
        { c with SyncSrv := bytes "webpush.wx.qq.com" }
    .ok { s with WxWebCommon := c }

/-! ## `producer` (lines 230-264) -/

/-- What the environment answers during one iteration of the loop: the triple
returned by `SyncCheck`, and the error `WebWxSync` returns if it is called. -/
structure Poll where
  ret : Int
  sel : Int
  err : Option GoError
  syncErr : Option GoError
  deriving DecidableEq, Repr

/-- Observable actions of `producer`. -/
inductive PEvent where
  | logError (e : GoError)
  | webWxSync
  | send (e : Option GoError)
  deriving DecidableEq, Repr

/-- One iteration of the `for` loop: the actions performed, and whether the loop
goes on (`true`) or is left by `break loop1` (`false`). -/
def producerBody (p : Poll) : List PEvent × Bool :=
  match p.err with
  | some e => ([.logError e], true)
  | none =>
    if p.ret = 0 then
      if p.sel = 2 then
        match p.syncErr with
        | some e => ([.webWxSync, .logError e], true)
        | none => ([.webWxSync], true)
      else if p.sel ≠ 0 ∧ p.sel ≠ 7 then
        ([.send (some (Errorf "session down, sel %d" [p.sel]))], false)
      else
        ([], true)
    else if p.ret = 1101 then
      ([.send none], false)
    else if p.ret = 1205 then
      ([.send (some (Errorf "api blocked, ret:%d" [1205]))], false)
    else
      ([.send (some (Errorf "unhandled exception ret %d" [p.ret]))], false)

/-- `Session.producer` run against a finite sequence of answers: the actions in
order, and whether the loop is still running after the last answer. -/
def producer : List Poll → List PEvent × Bool
  | [] => ([], true)
  | p :: rest =>
    match producerBody p with
    | (evs, true) => (evs ++ (producer rest).1, (producer rest).2)
    | (evs, false) => (evs, false)

/-! ## `analize` (lines 288-325) -/

/-- Go map indexing `msg[key]`; `none` is the nil interface of a missing key. -/
def mapIndex (msg : List (GoString × JVal)) (key : GoString) : Option JVal :=
  msg.lookup key

/-- The type assertion `x.(string)`. -/
def asString : Option JVal → Except Panic GoString
  | some (.str s) => .ok s
  | _ => .error .typeAssertion

/-- The type assertion `x.(float64)` followed by `int(..)`. -/
def asFloat64 : Option JVal → Except Panic Int
  | some (.num n) => .ok n
  | _ => .error .typeAssertion

/-- The type assertion `v.(map[string]interface{})`. -/
def asObject : JVal → Except Panic (List (GoString × JVal))
  | .obj kvs => .ok kvs
  | _ => .error .typeAssertion

/-- Lines 289-295: the struct literal; the remaining fields have Go's zero values. -/
def newReceivedMessage (msg : List (GoString × JVal)) : Except Panic ReceivedMessage := do
  let msgId ← asString (mapIndex msg (bytes "MsgId"))
  let content ← asString (mapIndex msg (bytes "Content"))
  let fromUserName ← asString (mapIndex msg (bytes "FromUserName"))
  let toUserName ← asString (mapIndex msg (bytes "ToUserName"))
  let msgType ← asFloat64 (mapIndex msg (bytes "MsgType"))
  pure
    { MsgId := msgId
      OriginContent := content
      FromUserName := fromUserName
      ToUserName := toUserName
      MsgType := msgType
      IsGroup := false
      Who := []
      Content := []
      At := [] }

/-- Lines 297-313: group detection and speaker handling. -/
def groupStep (bot : Option User) (rmsg : ReceivedMessage) : Except Panic ReceivedMessage :=
  if contains rmsg.FromUserName groupMarker || contains rmsg.ToUserName groupMarker then
    let rmsg := { rmsg with IsGroup := true }
    match split rmsg.OriginContent speakerDelim with
    | who :: content :: _ => .ok { rmsg with Who := who, Content := content }
    | _ =>
      match bot with
      | none => .error .nilDereference
      | some b => .ok { rmsg with Who := b.UserName, Content := rmsg.OriginContent }
  else
    .ok { rmsg with Who := rmsg.FromUserName, Content := rmsg.OriginContent }

/-- The guard of lines 314-316. -/
def mentionGuard (MSG_TEXT : Int) (rmsg : ReceivedMessage) : Bool :=
  decide (rmsg.MsgType = MSG_TEXT) && decide (rmsg.Content.length > 1) &&
    hasPrefix rmsg.Content atSign

/-- Lines 314-323: mention extraction. -/
def mentionStep (MSG_TEXT : Int) (rmsg : ReceivedMessage) : ReceivedMessage :=
  if mentionGuard MSG_TEXT rmsg then
    match split rmsg.Content mentionSep with
    | [a, b] => { rmsg with At := a ++ mentionSep, Content := b }
    | _ => rmsg
  else
    rmsg

/-- `Session.analize`. `MSG_TEXT` is the plain-text type constant, declared
outside `session.go`. -/
def analize {H : Type} (MSG_TEXT : Int) (s : Session H) (msg : List (GoString × JVal)) :
    Except Panic ReceivedMessage := do
  let rmsg ← newReceivedMessage msg
  let rmsg ← groupStep s.Bot rmsg
  pure (mentionStep MSG_TEXT rmsg)

/-! ## `consumer` (lines 266-286) -/

/-- The decoded batch as `consumer` reads it: the values of
`jc.GetInt("AddMsgCount")` and `jc.GetInterfaceSlice("AddMsgList")`. -/
structure Batch where
  AddMsgCount : Int
  AddMsgList : List JVal

/-- Observable actions of `consumer`. -/
inductive CEvent (H : Type) where
  | run (h : H) (rmsg : ReceivedMessage)
  | logError (e : GoError)
  deriving DecidableEq, Repr

/-- How a call ends. -/
inductive Outcome where
  | returned
  | panicked (p : Panic)
  deriving DecidableEq, Repr

/-- The `for _, v := range msgis` loop of lines 275-285. -/
def consumerLoop {H : Type} (MSG_TEXT : Int) (s : Session H) :
    List JVal → List (CEvent H) × Outcome
  | [] => ([], .returned)
  | v :: rest =>
    match asObject v >>= analize MSG_TEXT s with
    | .error p => ([], .panicked p)
    | .ok rmsg =>
      match s.HandlerRegister.Get rmsg.MsgType with
      | (some err, _) =>
        (.logError err :: (consumerLoop MSG_TEXT s rest).1, (consumerLoop MSG_TEXT s rest).2)
      | (none, handles) =>
        (handles.map (fun h => .run h rmsg) ++ (consumerLoop MSG_TEXT s rest).1,
          (consumerLoop MSG_TEXT s rest).2)

/-- `Session.consumer`. -/
def consumer {H : Type} (MSG_TEXT : Int) (s : Session H) (b : Batch) :
    List (CEvent H) × Outcome :=
  if b.AddMsgCount < 1 then ([], .returned)
  else consumerLoop MSG_TEXT s b.AddMsgList

/-- The handler starts among the events, in order. -/
def runs {H : Type} : List (CEvent H) → List (H × ReceivedMessage)
  | [] => []
  | .run h m :: evs => (h, m) :: runs evs
  | .logError _ :: evs => runs evs

/-! ## Notions used to state the properties -/

deriving instance DecidableEq for Except

/-- A field value that is present and a string. -/
def isStr : Option JVal → Bool
  | some (.str _) => true
  | _ => false

/-- A field value that is present and a number. -/
def isNum : Option JVal → Bool
  | some (.num _) => true
  | _ => false

/-- A well-formed message element: an object whose `MsgId`, `Content`,
`FromUserName` and `ToUserName` are strings and whose `MsgType` is a number. -/
def wellFormed : JVal → Bool
  | .obj kvs =>
    isStr (mapIndex kvs (bytes "MsgId")) && isStr (mapIndex kvs (bytes "Content")) &&
      isStr (mapIndex kvs (bytes "FromUserName")) && isStr (mapIndex kvs (bytes "ToUserName")) &&
      isNum (mapIndex kvs (bytes "MsgType"))
  | _ => false

/-- Mention extraction does not apply to a message of type `ty` with display
content `c`: not plain text, at most one byte, no leading "@", no separator, or
more than one separator. -/
def MentionInapplicable (MSG_TEXT ty : Int) (c : GoString) : Prop :=
  ty ≠ MSG_TEXT ∨ c.length ≤ 1 ∨ hasPrefix c atSign = false ∨
    contains c mentionSep = false ∨
    ∃ a b d, c = a ++ mentionSep ++ b ++ mentionSep ++ d

/-- The handler starts one parsed message causes: every handler the registry
returns for its type, in the registry's order; none on a lookup miss. -/
def handlerStarts {H : Type} (reg : HandlerRegister H) (rmsg : ReceivedMessage) :
    List (H × ReceivedMessage) :=
  match reg.Get rmsg.MsgType with
  | (none, handles) => handles.map (fun h => (h, rmsg))
  | (some _, _) => []

/-- The element `v` is an object that `analize` turns into `rmsg`. -/
def AnalizesTo {H : Type} (MSG_TEXT : Int) (s : Session H) (v : JVal)
    (rmsg : ReceivedMessage) : Prop :=
  ∃ kvs, v = .obj kvs ∧ analize MSG_TEXT s kvs = .ok rmsg

/-- The element is a group message without a speaker segment: `FromUserName` or
`ToUserName` holds "@@" and `Content` holds no ":<br/>". These are the elements
on which line 306 reads `s.Bot`. -/
def needsBot : JVal → Bool
  | .obj kvs =>
    match newReceivedMessage kvs with
    | .ok r0 =>
      (contains r0.FromUserName groupMarker || contains r0.ToUserName groupMarker) &&
        !contains r0.OriginContent speakerDelim
    | .error _ => false
  | _ => false

/-! ## Sample data -/

/-- A message element with the five fields. -/
def mkMsg (msgId content fromUser toUser : String) (msgType : Int) : JVal :=
  .obj [(bytes "MsgId", .str (bytes msgId)), (bytes "Content", .str (bytes content)),
    (bytes "FromUserName", .str (bytes fromUser)), (bytes "ToUserName", .str (bytes toUser)),
    (bytes "MsgType", .num msgType)]

/-- The fields of `mkMsg` as a Go map. -/
def mkFields (msgId content fromUser toUser : String) (msgType : Int) :
    List (GoString × JVal) :=
  [(bytes "MsgId", .str (bytes msgId)), (bytes "Content", .str (bytes content)),
    (bytes "FromUserName", .str (bytes fromUser)), (bytes "ToUserName", .str (bytes toUser)),
    (bytes "MsgType", .num msgType)]

/-- A registry with handlers `10` and `11` for type `1` and nothing else. -/
def sampleRegister : HandlerRegister Nat :=
  ⟨fun key =>
    if key = 1 then (none, [10, 11])
    else (some (Errorf "no handlers for key [%d]" [key]), [])⟩

/-- A configuration before login. -/
def sampleCommon : Common :=
  { AppId := bytes "wx782c26e4c19acffb"
    LoginUrl := bytes "https://login.weixin.qq.com"
    Lang := bytes "zh_CN"
    DeviceID := bytes "e123456789012345"
    UserAgent := bytes "Mozilla/5.0"
    CgiUrl := []
    CgiDomain := []
    SyncSrv := bytes "webpush.wx2.qq.com"
    UploadUrl := bytes "https://file.wx2.qq.com/cgi-bin/mmwebwx-bin/webwxuploadmedia?f=json"
    MediaCount := 0
    RedirectUri := [] }

/-- A session whose bot is `me`. -/
def sampleSession : Session Nat :=
  { WxWebCommon := sampleCommon
    Bot := some ⟨bytes "me"⟩
    QrcodePath := []
    QrcodeUUID := bytes "uuid"
    HandlerRegister := sampleRegister }

/-- The same session with a nil `Bot`. -/
def sampleSessionNoBot : Session Nat :=
  { sampleSession with Bot := none }

/-- A redirect URL on the older pool. -/
def sampleUri : GoString := bytes "https://wx.qq.com/cgi-bin/mmwebwx-bin/webwxnewloginpage?ticket=t"

/-- A parser that knows `sampleUri`. -/
def sampleParse (uri : GoString) : Option URL :=
  if uri = sampleUri then some ⟨bytes "https", bytes "wx.qq.com"⟩ else none

/-! ## Facts about `index` and `split` -/

theorem unbordered_mentionSep : Unbordered mentionSep := by decide

theorem unbordered_speakerDelim : Unbordered speakerDelim := by decide

theorem index_of_isPrefixOf {s sep : GoString} (h : sep.isPrefixOf s = true) :
    index s sep = some 0 := by
  cases s <;> simp [index, h]

theorem index_nil_of_ne_nil {sep : GoString} (h : sep ≠ []) : index [] sep = none := by
  cases sep with
  | nil => exact absurd rfl h
  | cons c t => simp [index]

theorem index_cons_of_not_isPrefixOf {c : Nat} {t sep : GoString}
    (h : sep.isPrefixOf (c :: t) = false) :
    index (c :: t) sep = (index t sep).map (· + 1) := by
  simp [index, h]

theorem index_cons_eq_none {c : Nat} {t sep : GoString} (h : index (c :: t) sep = none) :
    sep.isPrefixOf (c :: t) = false ∧ index t sep = none := by
  by_cases hp : sep.isPrefixOf (c :: t) = true
  · rw [index_of_isPrefixOf hp] at h; cases h
  · have hp' : sep.isPrefixOf (c :: t) = false := eq_false_of_ne_true hp
    rw [index_cons_of_not_isPrefixOf hp'] at h
    exact ⟨hp', by simpa using h⟩

/-- An occurrence found by `index` lies inside the string. -/
theorem index_add_length_le {sep : GoString} :
    ∀ {s : GoString} {m : Nat}, index s sep = some m → m + sep.length ≤ s.length := by
  intro s
  induction s with
  | nil =>
    intro m h
    by_cases hp : sep.isPrefixOf ([] : GoString) = true
    · have hs : sep = [] := by
        cases sep with
        | nil => rfl
        | cons c t => simp at hp
      subst hs
      simp [index] at h
      omega
    · simp [index, hp] at h
  | cons c t ih =>
    intro m h
    by_cases hp : sep.isPrefixOf (c :: t) = true
    · rw [index_of_isPrefixOf hp] at h
      cases h
      have := (List.isPrefixOf_iff_prefix.mp hp).length_le
      simpa using this
    · have hp' : sep.isPrefixOf (c :: t) = false := eq_false_of_ne_true hp
      rw [index_cons_of_not_isPrefixOf hp'] at h
      cases hi : index t sep with
      | none => rw [hi] at h; cases h
      | some k =>
        rw [hi] at h
        cases h
        have := ih hi
        simp only [List.length_cons]
        omega

/-- `index` returns the first occurrence: any occurrence at offset `i` forces a
result at most `i`. -/
theorem index_le_of_isPrefixOf_drop {sep : GoString} :
    ∀ {s : GoString} {i : Nat}, sep.isPrefixOf (s.drop i) = true →
      ∃ m, index s sep = some m ∧ m ≤ i := by
  intro s
  induction s with
  | nil =>
    intro i h
    simp only [List.drop_nil] at h
    exact ⟨0, index_of_isPrefixOf h, Nat.zero_le _⟩
  | cons c t ih =>
    intro i h
    by_cases hp : sep.isPrefixOf (c :: t) = true
    · exact ⟨0, index_of_isPrefixOf hp, Nat.zero_le _⟩
    · have hp' : sep.isPrefixOf (c :: t) = false := eq_false_of_ne_true hp
      cases i with
      | zero => simp only [List.drop_zero] at h; exact absurd h hp
      | succ j =>
        simp only [List.drop_succ_cons] at h
        obtain ⟨m, hm, hle⟩ := ih h
        exact ⟨m + 1, by rw [index_cons_of_not_isPrefixOf hp', hm]; rfl, by omega⟩

/-- Without an occurrence the split is the string itself. -/
theorem splitLoop_of_index_none {sep s : GoString} (n : Nat) (h : index s sep = none) :
    splitLoop sep n s = [s] := by
  cases n <;> simp [splitLoop, h]

theorem splitLoop_succ_of_index_some {sep s : GoString} (n m : Nat) (h : index s sep = some m) :
    splitLoop sep (n + 1) s = s.take m :: splitLoop sep n (s.drop (m + sep.length)) := by
  simp [splitLoop, h]

/-- The loop bound `s.length` is never the reason the loop stops: any larger
bound gives the same slice. -/
theorem splitLoop_fuel {sep : GoString} (hsep : sep ≠ []) :
    ∀ (n k : Nat) (s : GoString), s.length ≤ n → s.length ≤ k →
      splitLoop sep n s = splitLoop sep k s := by
  intro n
  induction n with
  | zero =>
    intro k s hn _
    have hs : s = [] := List.length_eq_zero.mp (Nat.le_zero.mp hn)
    subst hs
    rw [splitLoop_of_index_none _ (index_nil_of_ne_nil hsep),
      splitLoop_of_index_none _ (index_nil_of_ne_nil hsep)]
  | succ n ih =>
    intro k s hn hk
    cases hi : index s sep with
    | none => rw [splitLoop_of_index_none _ hi, splitLoop_of_index_none _ hi]
    | some m =>
      have hle := index_add_length_le hi
      have hpos : 0 < sep.length := List.length_pos.mpr hsep
      cases k with
      | zero => omega
      | succ k =>
        rw [splitLoop_succ_of_index_some _ _ hi, splitLoop_succ_of_index_some _ _ hi]
        congr 1
        apply ih <;> simp only [List.length_drop] <;> omega

/-- Bounding the split loop by `Count(s, sep)`, as Go does, gives the same slice. -/
theorem splitLoop_countLoop (sep : GoString) :
    ∀ (n : Nat) (s : GoString), splitLoop sep (countLoop sep n s) s = splitLoop sep n s := by
  intro n
  induction n with
  | zero => intro s; rfl
  | succ n ih =>
    intro s
    cases hi : index s sep with
    | none => simp [countLoop, hi, splitLoop_of_index_none]
    | some m =>
      simp only [countLoop, hi]
      rw [splitLoop_succ_of_index_some _ _ hi, splitLoop_succ_of_index_some _ _ hi, ih]

theorem split_eq_count_bound (s sep : GoString) :
    splitLoop sep (count s sep) s = split s sep :=
  splitLoop_countLoop sep s.length s

/-- With an unbordered separator, no occurrence starts inside `x :: a` when
`x :: a` itself does not begin with one. -/
theorem not_isPrefixOf_append {sep : GoString} (hU : Unbordered sep) (x : Nat)
    (a b : GoString) (h : sep.isPrefixOf (x :: a) = false) :
    sep.isPrefixOf (x :: a ++ (sep ++ b)) = false := by
  apply eq_false_of_ne_true
  intro hcon
  have hp : sep <+: x :: a ++ (sep ++ b) := List.isPrefixOf_iff_prefix.mp hcon
  have hA : x :: a <+: x :: a ++ (sep ++ b) := List.prefix_append _ _
  rcases le_or_lt sep.length (x :: a).length with hle | hlt
  · have h1 : sep <+: x :: a := List.prefix_of_prefix_length_le hp hA hle
    have h2 := List.isPrefixOf_iff_prefix.mpr h1
    rw [h] at h2
    cases h2
  · have h1 : x :: a <+: sep := List.prefix_of_prefix_length_le hA hp (le_of_lt hlt)
    obtain ⟨t, ht⟩ := h1
    have hlen : sep.length = (x :: a).length + t.length := by
      rw [← ht, List.length_append]
    have hp2 : x :: a ++ t <+: x :: a ++ (sep ++ b) := by rw [ht]; exact hp
    have h3 : t <+: sep ++ b := (List.prefix_append_right_inj (x :: a)).mp hp2
    have h4 : t <+: sep :=
      List.prefix_of_prefix_length_le h3 (List.prefix_append _ _) (by omega)
    have h5 : sep.take t.length = t := (List.prefix_iff_eq_take.mp h4).symm
    have h6 : sep.drop (sep.length - t.length) = t := by
      have : sep.length - t.length = (x :: a).length := by omega
      rw [this, ← ht, List.drop_left]
    have hk : t.length < sep.length := by
      simp only [List.length_cons] at hlen; omega
    have hk0 : 0 < t.length := by omega
    exact hU t.length hk hk0 (h5.trans h6.symm)

/-- With an unbordered separator, the first occurrence in `a ++ sep ++ b` is the
one behind `a` when `a` holds none. -/
theorem index_append_sep {sep : GoString} (hU : Unbordered sep) :
    ∀ (a b : GoString), index a sep = none → index (a ++ (sep ++ b)) sep = some a.length := by
  intro a
  induction a with
  | nil =>
    intro b _
    apply index_of_isPrefixOf
    exact List.isPrefixOf_iff_prefix.mpr (List.prefix_append _ _)
  | cons x a ih =>
    intro b h
    obtain ⟨hp, ht⟩ := index_cons_eq_none h
    have hnp := not_isPrefixOf_append hU x a b hp
    rw [List.cons_append] at hnp ⊢
    rw [index_cons_of_not_isPrefixOf hnp, ih b ht]
    rfl

/-- Exactly one occurrence: the split has the two parts around it. -/
theorem split_append_sep {sep : GoString} (hU : Unbordered sep) (hsep : sep ≠ [])
    (a b : GoString) (ha : contains a sep = false) (hb : contains b sep = false) :
    split (a ++ sep ++ b) sep = [a, b] := by
  have ha' : index a sep = none := by simpa [contains] using ha
  have hb' : index b sep = none := by simpa [contains] using hb
  have hi := index_append_sep hU a b ha'
  have hpos : 0 < sep.length := List.length_pos.mpr hsep
  have hlen : (a ++ (sep ++ b)).length = (a.length + sep.length + b.length - 1) + 1 := by
    simp only [List.length_append]; omega
  rw [List.append_assoc]
  unfold split
  rw [hlen, splitLoop_succ_of_index_some _ _ hi, List.take_left]
  have hd : (a ++ (sep ++ b)).drop (a.length + sep.length) = b := by
    rw [← List.append_assoc]
    have : a.length + sep.length = (a ++ sep).length := by simp
    rw [this, List.drop_left]
  rw [hd, splitLoop_of_index_none _ hb']

/-- No occurrence: the split is the string alone. -/
theorem split_of_not_contains {s sep : GoString} (h : contains s sep = false) :
    split s sep = [s] :=
  splitLoop_of_index_none _ (by simpa [contains] using h)

/-- An occurrence: the split has at least two parts, the first being the text
before the first occurrence. -/
theorem split_of_contains {s sep : GoString} (hsep : sep ≠ []) (h : contains s sep = true) :
    ∃ m rest₁ rest, index s sep = some m ∧ split s sep = s.take m :: rest₁ :: rest := by
  cases hi : index s sep with
  | none => simp [contains, hi] at h
  | some m =>
    have hle := index_add_length_le hi
    have hpos : 0 < sep.length := List.length_pos.mpr hsep
    have hlen : s.length = (s.length - 1) + 1 := by omega
    refine ⟨m, ?_⟩
    unfold split
    rw [hlen, splitLoop_succ_of_index_some _ _ hi]
    cases hn : s.length - 1 with
    | zero => exact ⟨_, [], rfl, rfl⟩
    | succ n =>
      cases hj : index (s.drop (m + sep.length)) sep with
      | none => exact ⟨_, [], rfl, by rw [splitLoop_of_index_none _ hj]⟩
      | some j => exact ⟨_, _, rfl, by rw [splitLoop_succ_of_index_some _ _ hj]⟩

/-- Two occurrences one behind the other: the split has at least three parts. -/
theorem split_length_of_two {sep : GoString} (hsep : sep ≠ []) (a b d : GoString) :
    3 ≤ (split (a ++ sep ++ b ++ sep ++ d) sep).length := by
  have hpos : 0 < sep.length := List.length_pos.mpr hsep
  set s := a ++ sep ++ b ++ sep ++ d with hs
  have h1 : sep.isPrefixOf (s.drop a.length) = true := by
    have : s = a ++ (sep ++ (b ++ sep ++ d)) := by simp [hs]
    rw [this, List.drop_left]
    exact List.isPrefixOf_iff_prefix.mpr (List.prefix_append _ _)
  obtain ⟨m, hm, hma⟩ := index_le_of_isPrefixOf_drop h1
  have hsl : s.length = a.length + sep.length + b.length + sep.length + d.length := by
    simp only [hs, List.length_append]
  have h2 : sep.isPrefixOf ((s.drop (m + sep.length)).drop (a.length + b.length - m)) = true := by
    rw [List.drop_drop]
    have e : m + sep.length + (a.length + b.length - m) = (a ++ sep ++ b).length := by
      simp only [List.length_append]; omega
    have : s = (a ++ sep ++ b) ++ (sep ++ d) := by simp [hs]
    rw [e, this, List.drop_left]
    exact List.isPrefixOf_iff_prefix.mpr (List.prefix_append _ _)
  obtain ⟨j, hj, _⟩ := index_le_of_isPrefixOf_drop h2
  have hlen : s.length = (s.length - 2) + 1 + 1 := by omega
  unfold split
  rw [hlen, splitLoop_succ_of_index_some _ _ hm, splitLoop_succ_of_index_some _ _ hj]
  have : ∀ k t, 1 ≤ (splitLoop sep k t).length := by
    intro k t
    cases k with
    | zero => simp [splitLoop]
    | succ k => cases ht : index t sep <;> simp [splitLoop, ht]
  have := this (s.length - 2) ((s.drop (m + sep.length)).drop (j + sep.length))
  simp only [List.length_cons]
  omega

/-! ## Facts about the steps of `analize` -/

theorem mentionSep_ne_nil : mentionSep ≠ [] := by decide

theorem speakerDelim_ne_nil : speakerDelim ≠ [] := by decide

/-- The struct literal leaves the derived fields at their zero values. -/
theorem newReceivedMessage_zero {msg : List (GoString × JVal)} {r0 : ReceivedMessage}
    (h : newReceivedMessage msg = .ok r0) :
    r0.IsGroup = false ∧ r0.Who = [] ∧ r0.Content = [] ∧ r0.At = [] := by
  unfold newReceivedMessage at h
  cases h1 : asString (mapIndex msg (bytes "MsgId")) <;> simp [h1, bind, Except.bind] at h
  cases h2 : asString (mapIndex msg (bytes "Content")) <;> simp [h2] at h
  cases h3 : asString (mapIndex msg (bytes "FromUserName")) <;> simp [h3] at h
  cases h4 : asString (mapIndex msg (bytes "ToUserName")) <;> simp [h4] at h
  cases h5 : asFloat64 (mapIndex msg (bytes "MsgType")) <;> simp [h5, pure, Except.pure] at h
  subst h
  exact ⟨rfl, rfl, rfl, rfl⟩

/-- The group step when neither id holds the marker (lines 309-313). -/
theorem groupStep_not_group (bot : Option User) (r0 : ReceivedMessage)
    (hf : contains r0.FromUserName groupMarker = false)
    (ht : contains r0.ToUserName groupMarker = false) :
    groupStep bot r0 = .ok { r0 with Who := r0.FromUserName, Content := r0.OriginContent } := by
  simp [groupStep, hf, ht]

/-- The group step on a group message with a speaker segment (lines 299-304). -/
theorem groupStep_group_speaker (bot : Option User) (r0 : ReceivedMessage)
    (who content : GoString) (tail : List GoString)
    (hm : contains r0.FromUserName groupMarker = true ∨
      contains r0.ToUserName groupMarker = true)
    (hs : split r0.OriginContent speakerDelim = who :: content :: tail) :
    groupStep bot r0 = .ok { r0 with IsGroup := true, Who := who, Content := content } := by
  rcases hm with hm | hm <;> simp [groupStep, hm, hs]

/-- The group step on a group message without a speaker segment (lines 305-308). -/
theorem groupStep_group_plain (bot : Option User) (r0 : ReceivedMessage)
    (hm : contains r0.FromUserName groupMarker = true ∨
      contains r0.ToUserName groupMarker = true)
    (hs : split r0.OriginContent speakerDelim = [r0.OriginContent]) :
    groupStep bot r0 =
      match bot with
      | none => .error .nilDereference
      | some b =>
        .ok { r0 with IsGroup := true, Who := b.UserName, Content := r0.OriginContent } := by
  rcases hm with hm | hm <;> simp [groupStep, hm, hs]

/-- The speaker split has one part, or at least two. -/
theorem split_speaker_cases (c : GoString) :
    split c speakerDelim = [c] ∨
      ∃ who content tail, split c speakerDelim = who :: content :: tail := by
  cases hc : contains c speakerDelim with
  | false => exact Or.inl (split_of_not_contains hc)
  | true =>
    obtain ⟨m, r1, r, _, hs⟩ := split_of_contains speakerDelim_ne_nil hc
    exact Or.inr ⟨_, _, _, hs⟩

/-- The group step only writes `IsGroup`, `Who` and `Content`. -/
theorem groupStep_keeps {bot : Option User} {r0 g : ReceivedMessage}
    (h : groupStep bot r0 = .ok g) :
    g.MsgId = r0.MsgId ∧ g.OriginContent = r0.OriginContent ∧
      g.FromUserName = r0.FromUserName ∧ g.ToUserName = r0.ToUserName ∧
      g.MsgType = r0.MsgType ∧ g.At = r0.At := by
  by_cases hm : contains r0.FromUserName groupMarker = true ∨
      contains r0.ToUserName groupMarker = true
  · rcases split_speaker_cases r0.OriginContent with hs | ⟨who, content, tail, hs⟩
    · rw [groupStep_group_plain bot r0 hm hs] at h
      cases bot with
      | none => cases h
      | some b => cases h; exact ⟨rfl, rfl, rfl, rfl, rfl, rfl⟩
    · rw [groupStep_group_speaker bot r0 who content tail hm hs] at h
      cases h; exact ⟨rfl, rfl, rfl, rfl, rfl, rfl⟩
  · have hf : contains r0.FromUserName groupMarker = false :=
      eq_false_of_ne_true (fun hc => hm (Or.inl hc))
    have ht : contains r0.ToUserName groupMarker = false :=
      eq_false_of_ne_true (fun hc => hm (Or.inr hc))
    rw [groupStep_not_group bot r0 hf ht] at h
    cases h; exact ⟨rfl, rfl, rfl, rfl, rfl, rfl⟩

/-- The group step sets `IsGroup` exactly when one of the two ids holds the marker. -/
theorem groupStep_isGroup {bot : Option User} {r0 g : ReceivedMessage}
    (h0 : r0.IsGroup = false) (h : groupStep bot r0 = .ok g) :
    g.IsGroup = true ↔
      (contains r0.FromUserName groupMarker = true ∨
        contains r0.ToUserName groupMarker = true) := by
  by_cases hm : contains r0.FromUserName groupMarker = true ∨
      contains r0.ToUserName groupMarker = true
  · rcases split_speaker_cases r0.OriginContent with hs | ⟨who, content, tail, hs⟩
    · rw [groupStep_group_plain bot r0 hm hs] at h
      cases bot with
      | none => cases h
      | some b => cases h; exact ⟨fun _ => hm, fun _ => rfl⟩
    · rw [groupStep_group_speaker bot r0 who content tail hm hs] at h
      cases h; exact ⟨fun _ => hm, fun _ => rfl⟩
  · have hf : contains r0.FromUserName groupMarker = false :=
      eq_false_of_ne_true (fun hc => hm (Or.inl hc))
    have ht : contains r0.ToUserName groupMarker = false :=
      eq_false_of_ne_true (fun hc => hm (Or.inr hc))
    rw [groupStep_not_group bot r0 hf ht] at h
    cases h
    constructor
    · intro hg
      rw [h0] at hg
      cases hg
    · intro hc
      exact absurd hc hm

/-- The mention step only writes `At` and `Content`. -/
theorem mentionStep_keeps (MSG_TEXT : Int) (g : ReceivedMessage) :
    (mentionStep MSG_TEXT g).IsGroup = g.IsGroup ∧ (mentionStep MSG_TEXT g).Who = g.Who ∧
      (mentionStep MSG_TEXT g).OriginContent = g.OriginContent ∧
      (mentionStep MSG_TEXT g).MsgType = g.MsgType := by
  unfold mentionStep
  split
  · split <;> exact ⟨rfl, rfl, rfl, rfl⟩
  · exact ⟨rfl, rfl, rfl, rfl⟩

/-- Where mention extraction does not apply, the mention step changes nothing. -/
theorem mentionStep_of_inapplicable (MSG_TEXT : Int) (g : ReceivedMessage)
    (h : MentionInapplicable MSG_TEXT g.MsgType g.Content) : mentionStep MSG_TEXT g = g := by
  unfold mentionStep
  by_cases hg : mentionGuard MSG_TEXT g = true
  · rw [if_pos hg]
    have hg' : (g.MsgType = MSG_TEXT ∧ 1 < g.Content.length) ∧
        hasPrefix g.Content atSign = true := by
      simpa [mentionGuard] using hg
    rcases h with h | h | h | h | ⟨a, b, d, h⟩
    · exact absurd hg'.1.1 h
    · omega
    · rw [hg'.2] at h; cases h
    · rw [split_of_not_contains h]
    · have h3 := split_length_of_two mentionSep_ne_nil a b d
      rw [← h] at h3
      split
      · rename_i x y heq
        rw [heq] at h3
        simp at h3
      · rfl
  · rw [if_neg hg]

/-- `analize` is the three steps in sequence. -/
theorem analize_eq {H : Type} (MSG_TEXT : Int) (s : Session H) (msg : List (GoString × JVal))
    {r0 g : ReceivedMessage} (hnew : newReceivedMessage msg = .ok r0)
    (hgrp : groupStep s.Bot r0 = .ok g) :
    analize MSG_TEXT s msg = .ok (mentionStep MSG_TEXT g) := by
  simp [analize, hnew, hgrp, bind, Except.bind, pure, Except.pure]

/-! ## Facts about `consumer` -/

theorem asString_of_isStr {x : Option JVal} (h : isStr x = true) :
    ∃ str, asString x = .ok str := by
  unfold isStr at h
  split at h
  · exact ⟨_, rfl⟩
  · cases h

theorem asString_of_not_isStr {x : Option JVal} (h : isStr x = false) :
    asString x = .error .typeAssertion := by
  unfold isStr at h
  split at h
  · cases h
  · rename_i hne
    unfold asString
    split
    · rename_i str
      exact absurd rfl (hne str)
    · rfl

theorem asFloat64_of_isNum {x : Option JVal} (h : isNum x = true) :
    ∃ n, asFloat64 x = .ok n := by
  unfold isNum at h
  split at h
  · exact ⟨_, rfl⟩
  · cases h

theorem asFloat64_of_not_isNum {x : Option JVal} (h : isNum x = false) :
    asFloat64 x = .error .typeAssertion := by
  unfold isNum at h
  split at h
  · cases h
  · rename_i hne
    unfold asFloat64
    split
    · rename_i n
      exact absurd rfl (hne n)
    · rfl

/-- A well-formed element is an object whose struct literal is built without panic. -/
theorem newReceivedMessage_of_wellFormed {v : JVal} (h : wellFormed v = true) :
    ∃ kvs r0, v = .obj kvs ∧ newReceivedMessage kvs = .ok r0 := by
  cases v with
  | obj kvs =>
    simp only [wellFormed, Bool.and_eq_true] at h
    obtain ⟨⟨⟨⟨h1, h2⟩, h3⟩, h4⟩, h5⟩ := h
    obtain ⟨s1, e1⟩ := asString_of_isStr h1
    obtain ⟨s2, e2⟩ := asString_of_isStr h2
    obtain ⟨s3, e3⟩ := asString_of_isStr h3
    obtain ⟨s4, e4⟩ := asString_of_isStr h4
    obtain ⟨n5, e5⟩ := asFloat64_of_isNum h5
    refine ⟨kvs, ⟨s1, s2, s3, s4, n5, false, [], [], []⟩, rfl, ?_⟩
    simp only [newReceivedMessage, e1, e2, e3, e4, e5, bind, Except.bind, pure, Except.pure]
  | null => simp [wellFormed] at h
  | bool b => simp [wellFormed] at h
  | num n => simp [wellFormed] at h
  | str s => simp [wellFormed] at h
  | arr xs => simp [wellFormed] at h

/-- A malformed element makes line 276 or the struct literal panic on a type assertion. -/
theorem analize_of_not_wellFormed {H : Type} (MSG_TEXT : Int) (s : Session H) {v : JVal}
    (h : wellFormed v = false) :
    (asObject v >>= analize MSG_TEXT s) = .error .typeAssertion := by
  cases v with
  | obj kvs =>
    have hn : newReceivedMessage kvs = .error .typeAssertion := by
      unfold newReceivedMessage
      cases h1 : isStr (mapIndex kvs (bytes "MsgId")) with
      | false => simp [asString_of_not_isStr h1, bind, Except.bind]
      | true =>
        obtain ⟨s1, e1⟩ := asString_of_isStr h1
        cases h2 : isStr (mapIndex kvs (bytes "Content")) with
        | false => simp [e1, asString_of_not_isStr h2, bind, Except.bind]
        | true =>
          obtain ⟨s2, e2⟩ := asString_of_isStr h2
          cases h3 : isStr (mapIndex kvs (bytes "FromUserName")) with
          | false => simp [e1, e2, asString_of_not_isStr h3, bind, Except.bind]
          | true =>
            obtain ⟨s3, e3⟩ := asString_of_isStr h3
            cases h4 : isStr (mapIndex kvs (bytes "ToUserName")) with
            | false => simp [e1, e2, e3, asString_of_not_isStr h4, bind, Except.bind]
            | true =>
              obtain ⟨s4, e4⟩ := asString_of_isStr h4
              cases h5 : isNum (mapIndex kvs (bytes "MsgType")) with
              | false => simp [e1, e2, e3, e4, asFloat64_of_not_isNum h5, bind, Except.bind]
              | true => simp [wellFormed, h1, h2, h3, h4, h5] at h
    simp [asObject, analize, hn, bind, Except.bind]
  | null => rfl
  | bool b => rfl
  | num n => rfl
  | str s => rfl
  | arr xs => rfl

/-- With the bot set, the group step never panics. -/
theorem groupStep_ok_of_bot (u : User) (r0 : ReceivedMessage) :
    ∃ g, groupStep (some u) r0 = .ok g := by
  by_cases hm : contains r0.FromUserName groupMarker = true ∨
      contains r0.ToUserName groupMarker = true
  · rcases split_speaker_cases r0.OriginContent with hs | ⟨who, content, tail, hs⟩
    · exact ⟨{ r0 with IsGroup := true, Who := u.UserName, Content := r0.OriginContent },
        groupStep_group_plain (some u) r0 hm hs⟩
    · exact ⟨_, groupStep_group_speaker (some u) r0 who content tail hm hs⟩
  · have hf : contains r0.FromUserName groupMarker = false :=
      eq_false_of_ne_true (fun hc => hm (Or.inl hc))
    have ht : contains r0.ToUserName groupMarker = false :=
      eq_false_of_ne_true (fun hc => hm (Or.inr hc))
    exact ⟨_, groupStep_not_group (some u) r0 hf ht⟩

/-- With the bot set, `analize` returns on every well-formed element. -/
theorem analizesTo_of_wellFormed {H : Type} (MSG_TEXT : Int) (s : Session H) (u : User)
    (hbot : s.Bot = some u) {v : JVal} (h : wellFormed v = true) :
    ∃ rmsg, AnalizesTo MSG_TEXT s v rmsg := by
  obtain ⟨kvs, r0, hv, hnew⟩ := newReceivedMessage_of_wellFormed h
  obtain ⟨g, hg⟩ := groupStep_ok_of_bot u r0
  rw [← hbot] at hg
  exact ⟨_, kvs, hv, analize_eq MSG_TEXT s kvs hnew hg⟩

theorem analizesTo_list_of_wellFormed {H : Type} (MSG_TEXT : Int) (s : Session H) (u : User)
    (hbot : s.Bot = some u) :
    ∀ (vs : List JVal), (∀ v ∈ vs, wellFormed v = true) →
      ∃ rs, List.Forall₂ (AnalizesTo MSG_TEXT s) vs rs := by
  intro vs
  induction vs with
  | nil => intro _; exact ⟨[], List.Forall₂.nil⟩
  | cons v vs ih =>
    intro h
    obtain ⟨r, hr⟩ := analizesTo_of_wellFormed MSG_TEXT s u hbot (h v (List.mem_cons_self v vs))
    obtain ⟨rs, hrs⟩ := ih (fun w hw => h w (List.mem_cons_of_mem v hw))
    exact ⟨r :: rs, List.Forall₂.cons hr hrs⟩

/-- The analysis of a well-formed element returns when the bot is set or the
element is not a group message without a speaker segment. -/
theorem analizesTo_of_not_needsBot {H : Type} (MSG_TEXT : Int) (s : Session H) {v : JVal}
    (h : wellFormed v = true) (hb : s.Bot ≠ none ∨ needsBot v = false) :
    ∃ rmsg, AnalizesTo MSG_TEXT s v rmsg := by
  rcases hb with hb | hb
  · cases hbot : s.Bot with
    | none => exact absurd hbot hb
    | some u => exact analizesTo_of_wellFormed MSG_TEXT s u hbot h
  · obtain ⟨kvs, r0, hv, hnew⟩ := newReceivedMessage_of_wellFormed h
    subst hv
    simp only [needsBot, hnew] at hb
    have hok : ∃ g, groupStep s.Bot r0 = .ok g := by
      by_cases hm : contains r0.FromUserName groupMarker = true ∨
          contains r0.ToUserName groupMarker = true
      · have hd : contains r0.OriginContent speakerDelim = true := by
          rcases hm with hm | hm <;> simpa [hm] using hb
        obtain ⟨m, r1, rest, _, hs⟩ := split_of_contains speakerDelim_ne_nil hd
        exact ⟨_, groupStep_group_speaker s.Bot r0 _ r1 rest hm hs⟩
      · have hf : contains r0.FromUserName groupMarker = false :=
          eq_false_of_ne_true (fun hc => hm (Or.inl hc))
        have ht : contains r0.ToUserName groupMarker = false :=
          eq_false_of_ne_true (fun hc => hm (Or.inr hc))
        exact ⟨_, groupStep_not_group s.Bot r0 hf ht⟩
    obtain ⟨g, hg⟩ := hok
    exact ⟨_, kvs, rfl, analize_eq MSG_TEXT s kvs hnew hg⟩

theorem analizesTo_list_of_not_needsBot {H : Type} (MSG_TEXT : Int) (s : Session H) :
    ∀ (vs : List JVal), (∀ v ∈ vs, wellFormed v = true) →
      (s.Bot ≠ none ∨ ∀ v ∈ vs, needsBot v = false) →
      ∃ rs, List.Forall₂ (AnalizesTo MSG_TEXT s) vs rs := by
  intro vs
  induction vs with
  | nil => intro _ _; exact ⟨[], List.Forall₂.nil⟩
  | cons v vs ih =>
    intro h hb
    have hv : s.Bot ≠ none ∨ needsBot v = false :=
      hb.imp id (fun hall => hall v (List.mem_cons_self v vs))
    have hvs : s.Bot ≠ none ∨ ∀ w ∈ vs, needsBot w = false :=
      hb.imp id (fun hall w hw => hall w (List.mem_cons_of_mem v hw))
    obtain ⟨r, hr⟩ := analizesTo_of_not_needsBot MSG_TEXT s (h v (List.mem_cons_self v vs)) hv
    obtain ⟨rs, hrs⟩ := ih (fun w hw => h w (List.mem_cons_of_mem v hw)) hvs
    exact ⟨r :: rs, List.Forall₂.cons hr hrs⟩

theorem runs_append {H : Type} (xs ys : List (CEvent H)) :
    runs (xs ++ ys) = runs xs ++ runs ys := by
  induction xs with
  | nil => rfl
  | cons x xs ih => cases x <;> simp [runs, ih]

theorem runs_map_run {H : Type} (hs : List H) (rmsg : ReceivedMessage) :
    runs (hs.map (fun h => CEvent.run h rmsg)) = hs.map (fun h => (h, rmsg)) := by
  induction hs with
  | nil => rfl
  | cons h hs ih => simp [runs, ih]

/-- One pass of the loop body on an element that analyses to `rmsg`. -/
theorem consumerLoop_cons {H : Type} (MSG_TEXT : Int) (s : Session H) (v : JVal)
    (rest : List JVal) (rmsg : ReceivedMessage) (h : AnalizesTo MSG_TEXT s v rmsg) :
    (consumerLoop MSG_TEXT s (v :: rest)).2 = (consumerLoop MSG_TEXT s rest).2 ∧
      runs (consumerLoop MSG_TEXT s (v :: rest)).1 =
        handlerStarts s.HandlerRegister rmsg ++ runs (consumerLoop MSG_TEXT s rest).1 := by
  obtain ⟨kvs, hv, ha⟩ := h
  subst hv
  have hb : (asObject (.obj kvs) >>= analize MSG_TEXT s) = .ok rmsg := by
    simp [asObject, ha, bind, Except.bind]
  rcases hget : s.HandlerRegister.Get rmsg.MsgType with ⟨err, handles⟩
  cases err with
  | none => simp [consumerLoop, handlerStarts, hb, hget, runs_append, runs_map_run]
  | some e => simp [consumerLoop, handlerStarts, hb, hget, runs]

/-- The loop over a run of elements that all analyse, followed by anything. -/
theorem consumerLoop_append {H : Type} (MSG_TEXT : Int) (s : Session H) (rest : List JVal) :
    ∀ (pre : List JVal) (rs : List ReceivedMessage),
      List.Forall₂ (AnalizesTo MSG_TEXT s) pre rs →
      (consumerLoop MSG_TEXT s (pre ++ rest)).2 = (consumerLoop MSG_TEXT s rest).2 ∧
        runs (consumerLoop MSG_TEXT s (pre ++ rest)).1 =
          rs.flatMap (handlerStarts s.HandlerRegister) ++
            runs (consumerLoop MSG_TEXT s rest).1 := by
  intro pre rs h
  induction h with
  | nil => exact ⟨rfl, rfl⟩
  | @cons v r vs rs' hr _ ih =>
    obtain ⟨h1, h2⟩ := consumerLoop_cons MSG_TEXT s v (vs ++ rest) r hr
    rw [List.cons_append]
    refine ⟨h1.trans ih.1, ?_⟩
    rw [h2, ih.2, List.flatMap_cons, List.append_assoc]

/-! ## `analizeVersion` -/

/-- C10: when the redirect URL parses, `analizeVersion` sets `CgiDomain`, `CgiUrl`
and `SyncSrv` from the URL's scheme and host alone and leaves every other field
as it was. -/
theorem analizeVersion_sets_shard {H : Type} (urlParse : GoString → Option URL)
    (s : Session H) (uri : GoString) (u : URL) (h : urlParse uri = some u) :
    analizeVersion urlParse s uri = .ok
      { s with
        WxWebCommon :=
          { s.WxWebCommon with
            CgiDomain := u.Scheme ++ bytes "://" ++ u.Host
            CgiUrl := u.Scheme ++ bytes "://" ++ u.Host ++ bytes "/cgi-bin/mmwebwx-bin"
            SyncSrv :=
              if contains u.Host (bytes "wx2") = true then bytes "webpush.wx2.qq.com"
              else bytes "webpush.wx.qq.com" } } := by
  unfold analizeVersion
  rw [h]
  by_cases hc : contains u.Host (bytes "wx2") = true <;> simp [hc]

/-- Instance of `analizeVersion_sets_shard`: a redirect to `wx.qq.com` selects the older sync host. -/
theorem analizeVersion_sets_shard_witness :
    sampleParse sampleUri = some ⟨bytes "https", bytes "wx.qq.com"⟩ ∧
    analizeVersion sampleParse sampleSession sampleUri = .ok
      { sampleSession with
        WxWebCommon :=
          { sampleSession.WxWebCommon with
            CgiDomain := bytes "https" ++ bytes "://" ++ bytes "wx.qq.com"
            CgiUrl := bytes "https" ++ bytes "://" ++ bytes "wx.qq.com" ++
              bytes "/cgi-bin/mmwebwx-bin"
            SyncSrv :=
              if contains (bytes "wx.qq.com") (bytes "wx2") = true then
                bytes "webpush.wx2.qq.com"
              else bytes "webpush.wx.qq.com" } } :=
  ⟨by decide,
    analizeVersion_sets_shard sampleParse sampleSession sampleUri
      ⟨bytes "https", bytes "wx.qq.com"⟩ (by decide)⟩

/-! ## `producer` -/

/-- C1: one iteration of `producer` follows the decision table: a transport error
is logged and the loop goes on; `ret = 0, sel = 2` fetches and goes on, also when
the fetch fails; `ret = 0, sel ∈ {0, 7}` goes on with no action; `ret = 0` with
another `sel` sends a "session down" error and stops; `ret = 1101` sends nil and
stops; `ret = 1205` sends an "api blocked" error and stops; any other `ret` sends
an "unhandled exception" error and stops. Stopping means the later answers are
never looked at. -/
theorem producer_decision_table (p : Poll) (rest : List Poll) :
    (∀ e, p.err = some e →
      producer (p :: rest) = (.logError e :: (producer rest).1, (producer rest).2)) ∧
    (p.err = none → p.ret = 0 → p.sel = 2 → p.syncErr = none →
      producer (p :: rest) = (.webWxSync :: (producer rest).1, (producer rest).2)) ∧
    (∀ e, p.err = none → p.ret = 0 → p.sel = 2 → p.syncErr = some e →
      producer (p :: rest) =
        (.webWxSync :: .logError e :: (producer rest).1, (producer rest).2)) ∧
    (p.err = none → p.ret = 0 → (p.sel = 0 ∨ p.sel = 7) →
      producer (p :: rest) = producer rest) ∧
    (p.err = none → p.ret = 0 → p.sel ≠ 2 → p.sel ≠ 0 → p.sel ≠ 7 →
      producer (p :: rest) =
        ([.send (some (Errorf "session down, sel %d" [p.sel]))], false)) ∧
    (p.err = none → p.ret = 1101 → producer (p :: rest) = ([.send none], false)) ∧
    (p.err = none → p.ret = 1205 →
      producer (p :: rest) = ([.send (some (Errorf "api blocked, ret:%d" [1205]))], false)) ∧
    (p.err = none → p.ret ≠ 0 → p.ret ≠ 1101 → p.ret ≠ 1205 →
      producer (p :: rest) =
        ([.send (some (Errorf "unhandled exception ret %d" [p.ret]))], false)) := by
  refine ⟨?_, ?_, ?_, ?_, ?_, ?_, ?_, ?_⟩
  · intro e he
    simp [producer, producerBody, he]
  · intro he hr hs hf
    simp [producer, producerBody, he, hr, hs, hf]
  · intro e he hr hs hf
    simp [producer, producerBody, he, hr, hs, hf]
  · intro he hr hs
    rcases hs with hs | hs <;> simp [producer, producerBody, he, hr, hs]
  · intro he hr h2 h0 h7
    simp [producer, producerBody, he, hr, h2, h0, h7]
  · intro he hr
    simp [producer, producerBody, he, hr]
  · intro he hr
    simp [producer, producerBody, he, hr]
  · intro he h0 h1 h2
    simp [producer, producerBody, he, h0, h1, h2]

/-- Instances of `producer_decision_table`: a failed fetch, a logout, an unknown selector, a transport error. -/
theorem producer_decision_table_witness :
    producer [⟨0, 2, none, some (Errorf "timeout" [])⟩, ⟨1101, 5, none, none⟩] =
        (.webWxSync :: .logError (Errorf "timeout" []) ::
          (producer [⟨1101, 5, none, none⟩]).1, (producer [⟨1101, 5, none, none⟩]).2) ∧
    producer [⟨1101, 5, none, none⟩, ⟨0, 2, none, none⟩] = ([.send none], false) ∧
    producer [⟨0, 4, none, none⟩, ⟨0, 2, none, none⟩] =
        ([.send (some (Errorf "session down, sel %d" [4]))], false) ∧
    producer [⟨1101, 4, some (Errorf "EOF" []), none⟩, ⟨0, 7, none, none⟩] =
        (.logError (Errorf "EOF" []) :: (producer [⟨0, 7, none, none⟩]).1,
          (producer [⟨0, 7, none, none⟩]).2) :=
  ⟨(producer_decision_table ⟨0, 2, none, some (Errorf "timeout" [])⟩
      [⟨1101, 5, none, none⟩]).2.2.1 _ rfl rfl rfl rfl,
    (producer_decision_table ⟨1101, 5, none, none⟩ [⟨0, 2, none, none⟩]).2.2.2.2.2.1 rfl rfl,
    (producer_decision_table ⟨0, 4, none, none⟩ [⟨0, 2, none, none⟩]).2.2.2.2.1
      rfl rfl (by decide) (by decide) (by decide),
    (producer_decision_table ⟨1101, 4, some (Errorf "EOF" []), none⟩
      [⟨0, 7, none, none⟩]).1 _ rfl⟩

/-! ## `consumer` on an empty batch -/

/-- C9: a batch whose `AddMsgCount` is below one makes `consumer` return at once:
no handler is started, nothing is logged, no panic, whatever the list and the
registry hold. -/
theorem consumer_count_below_one {H : Type} (MSG_TEXT : Int) (s : Session H) (b : Batch)
    (h : b.AddMsgCount < 1) : consumer MSG_TEXT s b = ([], .returned) := by
  simp [consumer, h]

/-- Instance of `consumer_count_below_one`: count `0` with a non-empty list. -/
theorem consumer_count_below_one_witness :
    (0 : Int) < 1 ∧
    consumer 1 sampleSession ⟨0, [.null, mkMsg "7" "hi" "alice" "me" 1]⟩ = ([], .returned) :=
  ⟨by decide,
    consumer_count_below_one 1 sampleSession ⟨0, [.null, mkMsg "7" "hi" "alice" "me" 1]⟩
      (by decide)⟩

/-! ## `analize` -/

/-- C2: on the group message `speakerX:<br/>hello:<br/>world` (type 3, so no
mention extraction) `analize` gives `IsGroup = true` and `Who = speakerX`, but
`Content = hello`: the text behind the second delimiter is dropped, where the
property asks for `hello:<br/>world`. -/
theorem analize_group_content_cut :
    analize 1 sampleSession (mkFields "1" "speakerX:<br/>hello:<br/>world" "abc@@def" "me" 3) =
        .ok
          { MsgId := bytes "1"
            OriginContent := bytes "speakerX:<br/>hello:<br/>world"
            FromUserName := bytes "abc@@def"
            ToUserName := bytes "me"
            MsgType := 3
            IsGroup := true
            Who := bytes "speakerX"
            Content := bytes "hello"
            At := [] } ∧
      bytes "speakerX:<br/>hello:<br/>world" =
        bytes "speakerX" ++ speakerDelim ++ bytes "hello:<br/>world" ∧
      contains (bytes "speakerX") speakerDelim = false ∧
      bytes "hello" ≠ bytes "hello:<br/>world" := by
  decide

/-- C3: for a plain-text message whose display content after the group step
starts with "@" and is `a ++ U+2005 ++ b` with no further U+2005 in `a` or `b`,
`analize` returns the message with `At = a ++ U+2005` and `Content = b`. -/
theorem analize_mention_extracted {H : Type} (MSG_TEXT : Int) (s : Session H)
    (msg : List (GoString × JVal)) (r0 g : ReceivedMessage) (a b : GoString)
    (hnew : newReceivedMessage msg = .ok r0) (hgrp : groupStep s.Bot r0 = .ok g)
    (htype : g.MsgType = MSG_TEXT) (hat : hasPrefix g.Content atSign = true)
    (hc : g.Content = a ++ mentionSep ++ b)
    (ha : contains a mentionSep = false) (hb : contains b mentionSep = false) :
    analize MSG_TEXT s msg = .ok { g with At := a ++ mentionSep, Content := b } := by
  rw [analize_eq MSG_TEXT s msg hnew hgrp]
  have hlen : 1 < g.Content.length := by
    have h3 : mentionSep.length = 3 := by decide
    rw [hc]
    simp only [List.length_append, h3]
    omega
  have hguard : mentionGuard MSG_TEXT g = true := by
    simp [mentionGuard, htype, hlen, hat]
  have hsplit : split g.Content mentionSep = [a, b] := by
    rw [hc]
    exact split_append_sep unbordered_mentionSep mentionSep_ne_nil a b ha hb
  simp [mentionStep, hguard, hsplit]

/-- Instance of `analize_mention_extracted`: the message `@alice\u2005do the thing`. -/
theorem analize_mention_extracted_witness :
    newReceivedMessage (mkFields "1" "@alice\u2005do the thing" "alice" "me" 1) =
        .ok ⟨bytes "1", bytes "@alice\u2005do the thing", bytes "alice", bytes "me", 1,
          false, [], [], []⟩ ∧
      groupStep sampleSession.Bot
          ⟨bytes "1", bytes "@alice\u2005do the thing", bytes "alice", bytes "me", 1,
            false, [], [], []⟩ =
        .ok ⟨bytes "1", bytes "@alice\u2005do the thing", bytes "alice", bytes "me", 1,
          false, bytes "alice", bytes "@alice\u2005do the thing", []⟩ ∧
      analize 1 sampleSession (mkFields "1" "@alice\u2005do the thing" "alice" "me" 1) =
        .ok ⟨bytes "1", bytes "@alice\u2005do the thing", bytes "alice", bytes "me", 1,
          false, bytes "alice", bytes "do the thing", bytes "@alice" ++ mentionSep⟩ :=
  ⟨by decide, by decide,
    analize_mention_extracted 1 sampleSession
      (mkFields "1" "@alice\u2005do the thing" "alice" "me" 1)
      ⟨bytes "1", bytes "@alice\u2005do the thing", bytes "alice", bytes "me", 1,
        false, [], [], []⟩
      ⟨bytes "1", bytes "@alice\u2005do the thing", bytes "alice", bytes "me", 1,
        false, bytes "alice", bytes "@alice\u2005do the thing", []⟩
      (bytes "@alice") (bytes "do the thing")
      (by decide) (by decide) (by decide) (by decide) (by decide) (by decide) (by decide)⟩

/-- C6: for a well-formed element whose `FromUserName` or `ToUserName` holds "@@"
and whose `Content` holds no ":<br/>", in a session whose bot is `u`, the group
step gives `IsGroup = true`, `Who = u.UserName` and display content equal to the
raw content; `analize` returns a message with that `IsGroup` and `Who`, and with
`Content = OriginContent` whenever mention extraction does not apply. -/
theorem analize_group_without_speaker {H : Type} (MSG_TEXT : Int) (s : Session H)
    (msg : List (GoString × JVal)) (r0 : ReceivedMessage) (u : User)
    (hnew : newReceivedMessage msg = .ok r0)
    (hm : contains r0.FromUserName groupMarker = true ∨
      contains r0.ToUserName groupMarker = true)
    (hno : contains r0.OriginContent speakerDelim = false)
    (hbot : s.Bot = some u) :
    groupStep s.Bot r0 =
        .ok { r0 with IsGroup := true, Who := u.UserName, Content := r0.OriginContent } ∧
      ∃ r, analize MSG_TEXT s msg = .ok r ∧ r.IsGroup = true ∧ r.Who = u.UserName ∧
        r.OriginContent = r0.OriginContent ∧
        (MentionInapplicable MSG_TEXT r0.MsgType r0.OriginContent →
          r.Content = r.OriginContent ∧ r.At = []) := by
  have hg : groupStep s.Bot r0 =
      .ok { r0 with IsGroup := true, Who := u.UserName, Content := r0.OriginContent } := by
    rw [groupStep_group_plain s.Bot r0 hm (split_of_not_contains hno), hbot]
  refine ⟨hg, _, analize_eq MSG_TEXT s msg hnew hg, ?_, ?_, ?_, ?_⟩
  · rw [(mentionStep_keeps MSG_TEXT _).1]
  · rw [(mentionStep_keeps MSG_TEXT _).2.1]
  · rw [(mentionStep_keeps MSG_TEXT _).2.2.1]
  · intro hin
    rw [mentionStep_of_inapplicable MSG_TEXT
      { r0 with IsGroup := true, Who := u.UserName, Content := r0.OriginContent } hin]
    exact ⟨rfl, (newReceivedMessage_zero hnew).2.2.2⟩

/-- Instance of `analize_group_without_speaker`: `hello` sent in the group `abc@@def`. -/
theorem analize_group_without_speaker_witness :
    newReceivedMessage (mkFields "1" "hello" "abc@@def" "me" 1) =
        .ok ⟨bytes "1", bytes "hello", bytes "abc@@def", bytes "me", 1, false, [], [], []⟩ ∧
      groupStep sampleSession.Bot
          ⟨bytes "1", bytes "hello", bytes "abc@@def", bytes "me", 1, false, [], [], []⟩ =
        .ok ⟨bytes "1", bytes "hello", bytes "abc@@def", bytes "me", 1, true, bytes "me",
          bytes "hello", []⟩ ∧
      ∃ r, analize 1 sampleSession (mkFields "1" "hello" "abc@@def" "me" 1) = .ok r ∧
        r.IsGroup = true ∧ r.Who = bytes "me" ∧ r.OriginContent = bytes "hello" ∧
        (MentionInapplicable 1 1 (bytes "hello") → r.Content = r.OriginContent ∧ r.At = []) :=
  ⟨by decide,
    analize_group_without_speaker 1 sampleSession (mkFields "1" "hello" "abc@@def" "me" 1)
      ⟨bytes "1", bytes "hello", bytes "abc@@def", bytes "me", 1, false, [], [], []⟩
      ⟨bytes "me"⟩ (by decide) (by decide) (by decide) rfl⟩

/-- C7: when the type is not the plain-text type, or the display content after
the group step has at most one byte, or does not start with "@", or holds no
U+2005, or holds U+2005 more than once, `analize` returns the message exactly as
the group step left it, and its `At` is empty. -/
theorem analize_mention_not_extracted {H : Type} (MSG_TEXT : Int) (s : Session H)
    (msg : List (GoString × JVal)) (r0 g : ReceivedMessage)
    (hnew : newReceivedMessage msg = .ok r0) (hgrp : groupStep s.Bot r0 = .ok g)
    (h : g.MsgType ≠ MSG_TEXT ∨ g.Content.length ≤ 1 ∨ hasPrefix g.Content atSign = false ∨
      contains g.Content mentionSep = false ∨
      ∃ a b d, g.Content = a ++ mentionSep ++ b ++ mentionSep ++ d) :
    analize MSG_TEXT s msg = .ok g ∧ g.At = [] := by
  constructor
  · rw [analize_eq MSG_TEXT s msg hnew hgrp, mentionStep_of_inapplicable MSG_TEXT g h]
  · rw [(groupStep_keeps hgrp).2.2.2.2.2]
    exact (newReceivedMessage_zero hnew).2.2.2

/-- Instance of `analize_mention_not_extracted`: a text with two mentions. -/
theorem analize_mention_not_extracted_witness :
    newReceivedMessage (mkFields "1" "@a\u2005@b\u2005hi" "alice" "me" 1) =
        .ok ⟨bytes "1", bytes "@a\u2005@b\u2005hi", bytes "alice", bytes "me", 1,
          false, [], [], []⟩ ∧
      groupStep sampleSession.Bot
          ⟨bytes "1", bytes "@a\u2005@b\u2005hi", bytes "alice", bytes "me", 1,
            false, [], [], []⟩ =
        .ok ⟨bytes "1", bytes "@a\u2005@b\u2005hi", bytes "alice", bytes "me", 1,
          false, bytes "alice", bytes "@a\u2005@b\u2005hi", []⟩ ∧
      bytes "@a\u2005@b\u2005hi" =
        bytes "@a" ++ mentionSep ++ bytes "@b" ++ mentionSep ++ bytes "hi" ∧
      analize 1 sampleSession (mkFields "1" "@a\u2005@b\u2005hi" "alice" "me" 1) =
        .ok ⟨bytes "1", bytes "@a\u2005@b\u2005hi", bytes "alice", bytes "me", 1,
          false, bytes "alice", bytes "@a\u2005@b\u2005hi", []⟩ ∧
      ([] : GoString) = [] :=
  ⟨by decide, by decide, by decide,
    analize_mention_not_extracted 1 sampleSession
      (mkFields "1" "@a\u2005@b\u2005hi" "alice" "me" 1)
      ⟨bytes "1", bytes "@a\u2005@b\u2005hi", bytes "alice", bytes "me", 1,
        false, [], [], []⟩
      ⟨bytes "1", bytes "@a\u2005@b\u2005hi", bytes "alice", bytes "me", 1,
        false, bytes "alice", bytes "@a\u2005@b\u2005hi", []⟩
      (by decide) (by decide)
      (Or.inr (Or.inr (Or.inr (Or.inr ⟨bytes "@a", bytes "@b", bytes "hi", by decide⟩))))⟩

/-- C8: for a well-formed element, every message `analize` returns has
`IsGroup = true` exactly when `FromUserName` or `ToUserName` holds "@@". When
neither does, `analize` returns, the group step gives `Who = FromUserName` and
display content equal to the raw content, and the final `Content` equals
`OriginContent` whenever mention extraction does not apply; none of this looks at
whether the content holds ":<br/>". When one does, `analize` returns (with
`IsGroup = true`) as soon as the bot is set or the content holds ":<br/>". -/
theorem analize_group_flag {H : Type} (MSG_TEXT : Int) (s : Session H)
    (msg : List (GoString × JVal)) (r0 : ReceivedMessage)
    (hnew : newReceivedMessage msg = .ok r0) :
    (∀ r, analize MSG_TEXT s msg = .ok r →
      (r.IsGroup = true ↔
        (contains r0.FromUserName groupMarker = true ∨
          contains r0.ToUserName groupMarker = true))) ∧
    (contains r0.FromUserName groupMarker = false →
      contains r0.ToUserName groupMarker = false →
      groupStep s.Bot r0 =
          .ok { r0 with Who := r0.FromUserName, Content := r0.OriginContent } ∧
        ∃ r, analize MSG_TEXT s msg = .ok r ∧ r.IsGroup = false ∧
          r.Who = r0.FromUserName ∧ r.OriginContent = r0.OriginContent ∧
          (MentionInapplicable MSG_TEXT r0.MsgType r0.OriginContent →
            r.Content = r.OriginContent)) ∧
    ((contains r0.FromUserName groupMarker = true ∨
        contains r0.ToUserName groupMarker = true) →
      (s.Bot ≠ none ∨ contains r0.OriginContent speakerDelim = true) →
      ∃ r, analize MSG_TEXT s msg = .ok r ∧ r.IsGroup = true) := by
  have hz := newReceivedMessage_zero hnew
  refine ⟨?_, ?_, ?_⟩
  · intro r hr
    cases hg : groupStep s.Bot r0 with
    | error p => simp [analize, hnew, hg, bind, Except.bind] at hr
    | ok g =>
      rw [analize_eq MSG_TEXT s msg hnew hg] at hr
      cases hr
      rw [(mentionStep_keeps MSG_TEXT g).1]
      exact groupStep_isGroup hz.1 hg
  · intro hf ht
    have hg := groupStep_not_group s.Bot r0 hf ht
    refine ⟨hg, _, analize_eq MSG_TEXT s msg hnew hg, ?_, ?_, ?_, ?_⟩
    · rw [(mentionStep_keeps MSG_TEXT _).1]
      exact hz.1
    · rw [(mentionStep_keeps MSG_TEXT _).2.1]
    · rw [(mentionStep_keeps MSG_TEXT _).2.2.1]
    · intro hin
      rw [mentionStep_of_inapplicable MSG_TEXT
        { r0 with Who := r0.FromUserName, Content := r0.OriginContent } hin]
  · intro hm hb
    have hok : ∃ g, groupStep s.Bot r0 = .ok g := by
      rcases split_speaker_cases r0.OriginContent with hs | ⟨who, content, tail, hs⟩
      · rcases hb with hb | hb
        · cases hbot : s.Bot with
          | none => exact absurd hbot hb
          | some b =>
            exact ⟨{ r0 with IsGroup := true, Who := b.UserName, Content := r0.OriginContent },
              groupStep_group_plain (some b) r0 hm hs⟩
        · obtain ⟨m, r1, rest, _, hs2⟩ := split_of_contains speakerDelim_ne_nil hb
          rw [hs] at hs2
          exact absurd (congrArg List.length hs2) (by simp)
      · exact ⟨_, groupStep_group_speaker s.Bot r0 who content tail hm hs⟩
    obtain ⟨g, hg⟩ := hok
    refine ⟨_, analize_eq MSG_TEXT s msg hnew hg, ?_⟩
    rw [(mentionStep_keeps MSG_TEXT g).1]
    exact (groupStep_isGroup hz.1 hg).mpr hm

/-- Instance of `analize_group_flag`: a direct message whose text holds the speaker delimiter. -/
theorem analize_group_flag_witness :
    newReceivedMessage (mkFields "1" "bob:<br/>hi" "alice" "me" 3) =
        .ok ⟨bytes "1", bytes "bob:<br/>hi", bytes "alice", bytes "me", 3, false, [], [], []⟩ ∧
      contains (bytes "alice") groupMarker = false ∧
      contains (bytes "me") groupMarker = false ∧
      ∃ r, analize 1 sampleSession (mkFields "1" "bob:<br/>hi" "alice" "me" 3) = .ok r ∧
        r.IsGroup = false ∧ r.Who = bytes "alice" ∧ r.OriginContent = bytes "bob:<br/>hi" ∧
        (MentionInapplicable 1 3 (bytes "bob:<br/>hi") → r.Content = r.OriginContent) :=
  ⟨by decide, by decide, by decide,
    ((analize_group_flag 1 sampleSession (mkFields "1" "bob:<br/>hi" "alice" "me" 3)
      ⟨bytes "1", bytes "bob:<br/>hi", bytes "alice", bytes "me", 3, false, [], [], []⟩
      (by decide)).2.1 (by decide) (by decide)).2⟩

/-! ## `consumer` on a non-empty batch -/

/-- C4, as stated, fails: in a session whose `Bot` is nil, the batch of a group
message `hello` (no speaker segment) followed by a text message has only
well-formed elements, yet `consumer` panics on the nil dereference of line 306
and starts no handler, although handlers `10` and `11` are registered for type
`1`; with the bot set the same batch returns. -/
theorem consumer_wellFormed_nil_bot_panics :
    (1 : Int) ≤ 2 ∧
      wellFormed (mkMsg "1" "hello" "abc@@def" "me" 1) = true ∧
      wellFormed (mkMsg "2" "hi" "alice" "me" 1) = true ∧
      sampleSessionNoBot.Bot = none ∧
      consumer 1 sampleSessionNoBot
          ⟨2, [mkMsg "1" "hello" "abc@@def" "me" 1, mkMsg "2" "hi" "alice" "me" 1]⟩ =
        ([], .panicked .nilDereference) ∧
      (consumer 1 sampleSession
          ⟨2, [mkMsg "1" "hello" "abc@@def" "me" 1, mkMsg "2" "hi" "alice" "me" 1]⟩).2 =
        .returned := by
  decide

/-- C4, amended: for a batch with `AddMsgCount ≥ 1` whose elements are all
well-formed, when the bot is set or no element is a group message without a
speaker segment, `consumer` returns without panic; every element is analysed,
and the handler starts are, element by element in list order, every handler the
registry returns for that message's type, once each, in the registry's order,
with that parsed message. A lookup miss contributes no start and the loop goes
on with the next element. -/
theorem consumer_dispatches_in_order {H : Type} (MSG_TEXT : Int) (s : Session H) (b : Batch)
    (hcount : 1 ≤ b.AddMsgCount)
    (hwf : ∀ v ∈ b.AddMsgList, wellFormed v = true)
    (hbot : s.Bot ≠ none ∨ ∀ v ∈ b.AddMsgList, needsBot v = false) :
    ∃ rs, List.Forall₂ (AnalizesTo MSG_TEXT s) b.AddMsgList rs ∧
      (consumer MSG_TEXT s b).2 = .returned ∧
      runs (consumer MSG_TEXT s b).1 = rs.flatMap (handlerStarts s.HandlerRegister) := by
  obtain ⟨rs, hrs⟩ := analizesTo_list_of_not_needsBot MSG_TEXT s b.AddMsgList hwf hbot
  have hc : ¬ b.AddMsgCount < 1 := by omega
  have h := consumerLoop_append MSG_TEXT s [] b.AddMsgList rs hrs
  rw [List.append_nil] at h
  refine ⟨rs, hrs, ?_, ?_⟩
  · simp only [consumer, if_neg hc]
    exact h.1
  · simp only [consumer, if_neg hc]
    rw [h.2]
    simp [consumerLoop, runs]

/-- Instance of `consumer_dispatches_in_order` with a nil `Bot`: a group message
with a speaker segment, a text message and a message of an unhandled type. -/
theorem consumer_dispatches_in_order_witness :
    (1 : Int) ≤ 3 ∧
      (∀ v ∈ [mkMsg "1" "bob:<br/>yo" "abc@@def" "me" 1, mkMsg "2" "hi" "alice" "me" 1,
          mkMsg "3" "pic" "alice" "me" 3],
        wellFormed v = true) ∧
      (sampleSessionNoBot.Bot ≠ none ∨
        ∀ v ∈ [mkMsg "1" "bob:<br/>yo" "abc@@def" "me" 1, mkMsg "2" "hi" "alice" "me" 1,
            mkMsg "3" "pic" "alice" "me" 3],
          needsBot v = false) ∧
      ∃ rs, List.Forall₂ (AnalizesTo 1 sampleSessionNoBot)
          [mkMsg "1" "bob:<br/>yo" "abc@@def" "me" 1, mkMsg "2" "hi" "alice" "me" 1,
            mkMsg "3" "pic" "alice" "me" 3] rs ∧
        (consumer 1 sampleSessionNoBot
          ⟨3, [mkMsg "1" "bob:<br/>yo" "abc@@def" "me" 1, mkMsg "2" "hi" "alice" "me" 1,
            mkMsg "3" "pic" "alice" "me" 3]⟩).2 = .returned ∧
        runs (consumer 1 sampleSessionNoBot
          ⟨3, [mkMsg "1" "bob:<br/>yo" "abc@@def" "me" 1, mkMsg "2" "hi" "alice" "me" 1,
            mkMsg "3" "pic" "alice" "me" 3]⟩).1 =
            rs.flatMap (handlerStarts sampleSessionNoBot.HandlerRegister) :=
  ⟨by decide, by decide, Or.inr (by decide),
    consumer_dispatches_in_order 1 sampleSessionNoBot
      ⟨3, [mkMsg "1" "bob:<br/>yo" "abc@@def" "me" 1, mkMsg "2" "hi" "alice" "me" 1,
        mkMsg "3" "pic" "alice" "me" 3]⟩
      (by decide) (by decide) (Or.inr (by decide))⟩

/-- C5, as stated, fails: in a batch of two whose first element lacks `Content`,
`consumer` panics on the type assertion and starts no handler, although the
second element is well-formed and, alone, starts handlers `10` and `11`. -/
theorem consumer_malformed_not_skipped :
    wellFormed (.obj [(bytes "MsgId", .str (bytes "1")),
        (bytes "FromUserName", .str (bytes "alice")), (bytes "ToUserName", .str (bytes "me")),
        (bytes "MsgType", .num 1)]) = false ∧
      wellFormed (mkMsg "2" "hi" "alice" "me" 1) = true ∧
      consumer 1 sampleSession
          ⟨2, [.obj [(bytes "MsgId", .str (bytes "1")),
            (bytes "FromUserName", .str (bytes "alice")), (bytes "ToUserName", .str (bytes "me")),
            (bytes "MsgType", .num 1)], mkMsg "2" "hi" "alice" "me" 1]⟩ =
        ([], .panicked .typeAssertion) ∧
      runs (consumer 1 sampleSession ⟨1, [mkMsg "2" "hi" "alice" "me" 1]⟩).1 =
        [(10, ⟨bytes "2", bytes "hi", bytes "alice", bytes "me", 1, false, bytes "alice",
            bytes "hi", []⟩),
          (11, ⟨bytes "2", bytes "hi", bytes "alice", bytes "me", 1, false, bytes "alice",
            bytes "hi", []⟩)] := by
  decide

/-- C5, amended: for a batch with `AddMsgCount ≥ 1` whose list is well-formed
elements `pre`, then a malformed element, then anything, in a session whose bot
is set, `consumer` panics on a type assertion at the malformed element; the
handler starts are exactly those of `pre`, in order, so the malformed element
and everything behind it start no handler. -/
theorem consumer_panics_at_first_malformed {H : Type} (MSG_TEXT : Int) (s : Session H)
    (b : Batch) (u : User) (pre post : List JVal) (bad : JVal)
    (hcount : 1 ≤ b.AddMsgCount) (hlist : b.AddMsgList = pre ++ bad :: post)
    (hpre : ∀ v ∈ pre, wellFormed v = true) (hbad : wellFormed bad = false)
    (hbot : s.Bot = some u) :
    ∃ rs, List.Forall₂ (AnalizesTo MSG_TEXT s) pre rs ∧
      (consumer MSG_TEXT s b).2 = .panicked .typeAssertion ∧
      runs (consumer MSG_TEXT s b).1 = rs.flatMap (handlerStarts s.HandlerRegister) := by
  obtain ⟨rs, hrs⟩ := analizesTo_list_of_wellFormed MSG_TEXT s u hbot pre hpre
  have hc : ¬ b.AddMsgCount < 1 := by omega
  have h := consumerLoop_append MSG_TEXT s (bad :: post) pre rs hrs
  have hb : consumerLoop MSG_TEXT s (bad :: post) = ([], .panicked .typeAssertion) := by
    simp only [consumerLoop, analize_of_not_wellFormed MSG_TEXT s hbad]
  rw [hb] at h
  refine ⟨rs, hrs, ?_, ?_⟩
  · simp only [consumer, if_neg hc, hlist]
    exact h.1
  · simp only [consumer, if_neg hc, hlist]
    rw [h.2]
    simp [runs]

/-- Instance of `consumer_panics_at_first_malformed`: a string between two messages. -/
theorem consumer_panics_at_first_malformed_witness :
    (1 : Int) ≤ 3 ∧
      [mkMsg "1" "hi" "alice" "me" 1, JVal.str (bytes "oops"), mkMsg "3" "yo" "alice" "me" 1] =
        [mkMsg "1" "hi" "alice" "me" 1] ++ .str (bytes "oops") ::
          [mkMsg "3" "yo" "alice" "me" 1] ∧
      (∀ v ∈ [mkMsg "1" "hi" "alice" "me" 1], wellFormed v = true) ∧
      wellFormed (.str (bytes "oops")) = false ∧
      sampleSession.Bot = some ⟨bytes "me"⟩ ∧
      ∃ rs, List.Forall₂ (AnalizesTo 1 sampleSession) [mkMsg "1" "hi" "alice" "me" 1] rs ∧
        (consumer 1 sampleSession
          ⟨3, [mkMsg "1" "hi" "alice" "me" 1, .str (bytes "oops"),
            mkMsg "3" "yo" "alice" "me" 1]⟩).2 = .panicked .typeAssertion ∧
        runs (consumer 1 sampleSession
          ⟨3, [mkMsg "1" "hi" "alice" "me" 1, .str (bytes "oops"),
            mkMsg "3" "yo" "alice" "me" 1]⟩).1 =
          rs.flatMap (handlerStarts sampleSession.HandlerRegister) :=
  ⟨by decide, rfl, by decide, by decide, rfl,
    consumer_panics_at_first_malformed 1 sampleSession
      ⟨3, [mkMsg "1" "hi" "alice" "me" 1, .str (bytes "oops"), mkMsg "3" "yo" "alice" "me" 1]⟩
      ⟨bytes "me"⟩ [mkMsg "1" "hi" "alice" "me" 1] [mkMsg "3" "yo" "alice" "me" 1]
      (.str (bytes "oops")) (by decide) rfl (by decide) (by decide) rfl⟩

end Wxweb
